import Mathlib

/-!
Verification development for the gPXE bit-bashing core.

The repository provides two headers: `src/include/gpxe/bitbash.h`, which
declares the `struct bit_basher` backend interface together with the
`write_bit` / `read_bit` primitives, and `src/include/compiler.h`, which
defines the debug-level machinery (`DBGLVL`, `DBG_DISABLE`, `DBG_ENABLE`).

The embedding below translates `struct bit_basher` and the debug macros
directly from the headers.  The bodies of `write_bit`, `read_bit`, the
multi-bit conveniences and the software-I2C state machine are not part of
the given sources (only their declarations and documentation are), so those
operations are modelled from the specification, as indicated on each
definition.  Operations are given as pure functions that return both the
updated pin state and the list of observable events (backend calls and
delays), so that temporal claims become statements about event traces.
-/

/-- The all-ones value of an `unsigned long` (`-1UL`) on the 32-bit
targets gPXE builds for. -/
def ULONG_MAX : Nat := 2 ^ 32 - 1

/-- Observable events emitted by the bit-bashing core towards its backend:
a call to the backend write primitive with a bit id and a mask, a call to
the backend read primitive returning a sampled value, and a blocking delay
of a number of microseconds. -/
inductive Evt : Type where
  | writeCall (bit_id : Nat) (mask : Nat)
  | readCall (bit_id : Nat) (value : Int)
  | delay (us : Nat)
deriving DecidableEq, Repr

/-- A bit-bashing interface, translated from `struct bit_basher` in
`src/include/gpxe/bitbash.h`.  The two function pointers become functions
over an abstract pin-state type `σ`: `write` receives the bit id and the
data mask (0 to clear the bit, all-ones to set it, so that the method may
simply binary-AND the data with the appropriate bit mask) and yields the
new pin state; `read` samples a bit and returns zero for logic 0 and any
non-zero `int` for logic 1.  `udelay` is the delay between subsequent
calls to `write`, in microseconds. -/
structure bit_basher (σ : Type) where
  write : σ → Nat → Nat → σ
  read : σ → Nat → Int
  udelay : Nat

/-- The world a bit-bashing operation acts on: the handle itself together
with the current state of the physical pins behind the backend. -/
structure World (σ : Type) where
  basher : bit_basher σ
  pins : σ

/-- Modelled from the spec: the encoding of a logic level as the mask
passed to the backend (`write_bit`'s body is absent from the sources).
All-zeros means drive/assert-0 and all-ones (`-1UL`) means
release/assert-1; the caller's `data` argument requests logic 0 exactly
when it is zero. -/
def level_mask (data : Nat) : Nat :=
  if data = 0 then 0 else ULONG_MAX

/-- Modelled from the spec: `write_bit` (its implementation file is absent
from the sources; only the declaration in `bitbash.h` is given).  It
delegates to the backend's write primitive, passing the level mask, then
blocks for the handle's configured settle delay.  It returns no data
value: the result is only the updated world and the emitted events. -/
def write_bit {σ : Type} (w : World σ) (bit_id : Nat) (data : Nat) :
    World σ × List Evt :=
  ({ w with pins := w.basher.write w.pins bit_id (level_mask data) },
   [Evt.writeCall bit_id (level_mask data), Evt.delay w.basher.udelay])

/-- Modelled from the spec: `read_bit` (its implementation file is absent
from the sources).  It returns the logic level sampled by the backend at
the moment of the call, inserting no delay; the world is untouched, so
the function returns only the sampled value and the single read event. -/
def read_bit {σ : Type} (w : World σ) (bit_id : Nat) : Int × List Evt :=
  (w.basher.read w.pins bit_id,
   [Evt.readCall bit_id (w.basher.read w.pins bit_id)])

/-- C1: `write_bit` first calls the backend write primitive with the level
mask, then blocks for the handle's configured settle delay (the write event
precedes the delay event in its trace), the pin state is updated exactly by
the backend write, and no data value is returned. -/
theorem write_bit_delegates_then_delays {σ : Type} (w : World σ)
    (bit_id data : Nat) :
    (write_bit w bit_id data).2 =
      [Evt.writeCall bit_id (level_mask data),
       Evt.delay w.basher.udelay] ∧
    (write_bit w bit_id data).1.pins =
      w.basher.write w.pins bit_id (level_mask data) := by
  constructor <;> rfl

/-- C6: `read_bit` returns exactly the value the backend samples at the
moment of the call, its trace contains no delay event at all, and it has
no failure outcome: it is a total function yielding a level for every
world and bit id. -/
theorem read_bit_samples_without_delay {σ : Type} (w : World σ)
    (bit_id : Nat) :
    (read_bit w bit_id).1 = w.basher.read w.pins bit_id ∧
    (∀ e ∈ (read_bit w bit_id).2, ∀ us, e ≠ Evt.delay us) := by
  refine ⟨rfl, ?_⟩
  intro e he us
  simp only [read_bit, List.mem_singleton] at he
  subst he
  intro h
  cases h

/-- C3: the mask `write_bit` hands to the backend is all-ones (`-1UL`)
exactly when a logic 1 is requested (`data ≠ 0`) and all-zeros exactly
when a logic 0 is requested (`data = 0`), and binary-ANDing the mask with
any bit mask representable in an `unsigned long` realises the write: the
AND yields the whole bit mask for logic 1 and zero for logic 0. -/
theorem write_bit_mask_encoding {σ : Type} (w : World σ)
    (bit_id data : Nat) :
    (write_bit w bit_id data).2.head? =
      some (Evt.writeCall bit_id (level_mask data)) ∧
    (level_mask data = ULONG_MAX ↔ data ≠ 0) ∧
    (level_mask data = 0 ↔ data = 0) ∧
    (∀ bm : Nat, bm ≤ ULONG_MAX →
      level_mask data &&& bm = if data = 0 then 0 else bm) := by
  refine ⟨rfl, ?_, ?_, ?_⟩
  · unfold level_mask ULONG_MAX
    constructor
    · intro h
      by_cases hd : data = 0
      · simp [hd] at h
      · exact hd
    · intro h
      simp [h]
  · unfold level_mask ULONG_MAX
    constructor
    · intro h
      by_cases hd : data = 0
      · exact hd
      · simp [hd] at h
    · intro h
      simp [h]
  · intro bm hbm
    unfold level_mask ULONG_MAX at *
    by_cases hd : data = 0
    · simp [hd]
    · simp only [hd, if_false]
      have hlt : bm < 2 ^ 32 := lt_of_le_of_lt hbm (by norm_num)
      calc (2 ^ 32 - 1) &&& bm = bm &&& (2 ^ 32 - 1) := Nat.and_comm _ _
        _ = bm := Nat.and_pow_two_sub_one_of_lt_two_pow hlt

/-- A single-bit operation requested against a handle: a write of a data
value to a bit id, or a read of a bit id. -/
inductive Op : Type where
  | write (bit_id : Nat) (data : Nat)
  | read (bit_id : Nat)
deriving DecidableEq, Repr

/-- Execute one operation through the core primitives, yielding the new
world and the emitted events. -/
def runOp {σ : Type} (w : World σ) : Op → World σ × List Evt
  | Op.write bit_id data => write_bit w bit_id data
  | Op.read bit_id => (w, (read_bit w bit_id).2)

/-- Execute a sequence of operations in order, concatenating the emitted
events. -/
def run {σ : Type} (w : World σ) : List Op → World σ × List Evt
  | [] => (w, [])
  | op :: ops =>
      let (w1, t1) := runOp w op
      let (w2, t2) := run w1 ops
      (w2, t1 ++ t2)

/-- A trace respects the settle delay `d` when every backend write call is
immediately followed by a delay of `d` microseconds, so no later event of
the trace can occur between a write and its settle delay. -/
def settled (d : Nat) : List Evt → Prop
  | [] => True
  | Evt.writeCall _ _ :: rest =>
      rest.head? = some (Evt.delay d) ∧ settled d rest
  | _ :: rest => settled d rest

theorem settled_append {d : Nat} :
    ∀ (t1 t2 : List Evt), settled d t1 → settled d t2 →
      settled d (t1 ++ t2)
  | [], _, _, h2 => h2
  | Evt.writeCall b m :: rest, t2, h1, h2 => by
      obtain ⟨hhead, hrest⟩ := h1
      refine ⟨?_, settled_append rest t2 hrest h2⟩
      cases rest with
      | nil => cases hhead
      | cons e rest' => simpa using hhead
  | Evt.readCall b v :: rest, t2, h1, h2 =>
      settled_append rest t2 h1 h2
  | Evt.delay us :: rest, t2, h1, h2 =>
      settled_append rest t2 h1 h2

theorem runOp_basher {σ : Type} (w : World σ) (op : Op) :
    (runOp w op).1.basher = w.basher := by
  cases op <;> rfl

theorem runOp_settled {σ : Type} (w : World σ) (op : Op) :
    settled w.basher.udelay (runOp w op).2 := by
  cases op with
  | write bit_id data => exact ⟨rfl, trivial⟩
  | read bit_id => trivial

/-- C2: in the trace of any sequence of operations on a handle, every
backend write call is immediately followed by a delay of the handle's
configured `udelay`; hence the settle delay elapses after every write
before any subsequent read or write on that handle proceeds. -/
theorem run_settle_delay_after_every_write {σ : Type} (w : World σ)
    (ops : List Op) :
    settled w.basher.udelay (run w ops).2 := by
  induction ops generalizing w with
  | nil => trivial
  | cons op ops ih =>
      have hb := runOp_basher w op
      have h1 := runOp_settled w op
      have h2 := ih (runOp w op).1
      rw [hb] at h2
      simpa [run] using settled_append _ _ h1 h2

/-- Modelled from the spec: `write_bits` (absent from the sources; the
spec documents it as a convenience composition).  It clocks out the listed
data values on the given bit id, index 0 first, inlining per value the
backend write of the level mask followed by the settle delay, as one
contiguous (atomic logical) step of the trace. -/
def write_bits {σ : Type} (w : World σ) (bit_id : Nat) :
    List Nat → World σ × List Evt
  | [] => (w, [])
  | data :: rest =>
      let w1 : World σ :=
        { w with pins := w.basher.write w.pins bit_id (level_mask data) }
      let (w2, t) := write_bits w1 bit_id rest
      (w2, Evt.writeCall bit_id (level_mask data) ::
             Evt.delay w.basher.udelay :: t)

/-- Modelled from the spec: `read_bits` (absent from the sources).  It
samples the given bit id `count` times, index 0 first, inlining the
backend read per sample, as one contiguous step of the trace. -/
def read_bits {σ : Type} (w : World σ) (bit_id : Nat) :
    Nat → List Int × List Evt
  | 0 => ([], [])
  | count + 1 =>
      let v := w.basher.read w.pins bit_id
      let (vs, t) := read_bits w bit_id count
      (v :: vs, Evt.readCall bit_id v :: t)

/-- The spec's description of `write_bits`: `count` independent `write_bit`
calls applied in a fixed order, index 0 first, with no additional
synchronization. -/
def iterated_write_bit {σ : Type} (w : World σ) (bit_id : Nat) :
    List Nat → World σ × List Evt
  | [] => (w, [])
  | data :: rest =>
      let (w1, t1) := write_bit w bit_id data
      let (w2, t2) := iterated_write_bit w1 bit_id rest
      (w2, t1 ++ t2)

/-- The spec's description of `read_bits`: `count` independent `read_bit`
calls applied in a fixed order, index 0 first. -/
def iterated_read_bit {σ : Type} (w : World σ) (bit_id : Nat) :
    Nat → List Int × List Evt
  | 0 => ([], [])
  | count + 1 =>
      let (v, t1) := read_bit w bit_id
      let (vs, t2) := iterated_read_bit w bit_id count
      (v :: vs, t1 ++ t2)

/-- C4: the multi-bit conveniences are observably equivalent to applying
`count` independent `write_bit` / `read_bit` calls in order starting at
index 0 — same final world, same values and the very same event trace
(so the multi-bit transfer is the contiguous concatenation of the
single-bit steps, with no additional synchronization events). -/
theorem multi_bit_equivalent_to_iterated_single_bit {σ : Type}
    (w : World σ) (bit_id : Nat) (levels : List Nat) (count : Nat) :
    write_bits w bit_id levels = iterated_write_bit w bit_id levels ∧
    read_bits w bit_id count = iterated_read_bit w bit_id count := by
  constructor
  · induction levels generalizing w with
    | nil => rfl
    | cons data rest ih =>
        simp [write_bits, iterated_write_bit, write_bit, ih]
  · induction count with
    | zero => rfl
    | succ n ih =>
        simp [read_bits, iterated_read_bit, read_bit, ih]

/-- Modelled from the spec: a mock physical-pin backend with a simulated
pull resistor, for the release-not-drive-high invariant.  Each line is
either actively driven low or released; a released line floats to the
pulled value the mock reports for it. -/
structure PinState : Type where
  driven : Nat → Bool
  pull : Nat → Int

/-- Modelled from the spec: the mock backend's primitives over `PinState`.
A write with mask 0 drives the line low; a write with a non-zero mask
releases the line (the backend never drives a line high).  A read reports
0 for a driven line and the pulled value for a released line. -/
def mock_basher (ud : Nat) : bit_basher PinState :=
  { write := fun s bit_id m =>
      { s with driven := fun b => if b = bit_id then decide (m = 0)
                                  else s.driven b },
    read := fun s bit_id => if s.driven bit_id then 0 else s.pull bit_id,
    udelay := ud }

/-- C7: on the pull-resistor mock backend, a `write_bit` of the released
level (non-zero data) followed immediately by a `read_bit` of the same bit
id returns exactly the backend's pulled value for that line, whatever the
line's previous driven state: the core never forces a line high. -/
theorem write_released_then_read_yields_pull (ud : Nat) (s : PinState)
    (bit_id data : Nat) (hrel : data ≠ 0) :
    (read_bit (write_bit ⟨mock_basher ud, s⟩ bit_id data).1 bit_id).1 =
      s.pull bit_id := by
  simp [read_bit, write_bit, mock_basher, level_mask, ULONG_MAX, hrel]

/-- C7 witness: on a concrete mock state whose line 3 is currently driven
low and pulled to 7, releasing bit 3 and reading it back yields 7. -/
theorem write_released_then_read_yields_pull_witness :
    (1 : Nat) ≠ 0 ∧
    (read_bit (write_bit ⟨mock_basher 5, ⟨fun _ => true, fun _ => 7⟩⟩
        3 1).1 3).1 = 7 :=
  ⟨by decide,
   write_released_then_read_yields_pull 5 ⟨fun _ => true, fun _ => 7⟩
     3 1 (by decide)⟩

/-- C8: a handle consists of nothing but its backend write and read
references and its settle delay (any handle equals the handle rebuilt from
those three fields alone), and neither `write_bit` nor `read_bit` changes
any of the three fields: a write returns the handle with `write`, `read`
and `udelay` intact, and a read leaves the whole world untouched. -/
theorem handle_fields_frame {σ : Type} :
    (∀ b : bit_basher σ, b = ⟨b.write, b.read, b.udelay⟩) ∧
    (∀ (w : World σ) (bit_id data : Nat),
      (write_bit w bit_id data).1.basher.write = w.basher.write ∧
      (write_bit w bit_id data).1.basher.read = w.basher.read ∧
      (write_bit w bit_id data).1.basher.udelay = w.basher.udelay) ∧
    (∀ (w : World σ) (bit_id : Nat), (runOp w (Op.read bit_id)).1 = w) := by
  exact ⟨fun b => rfl, fun w bit_id data => ⟨rfl, rfl, rfl⟩,
         fun w bit_id => rfl⟩

/-- C9: `read_bit` passes the backend's sampled `int` through without any
normalisation, and there is a backend honouring the documented contract
(zero for logic 0, any non-zero `int` for logic 1) whose logic-1 sample is
neither 0 nor 1 — so a caller comparing the result against the constant 1
misreads a logic-1 line that a non-zero test would classify correctly. -/
theorem read_bit_not_normalised :
    (∀ (σ : Type) (w : World σ) (bit_id : Nat),
      (read_bit w bit_id).1 = w.basher.read w.pins bit_id) ∧
    (∃ (b : bit_basher Unit) (bit_id : Nat),
      (read_bit ⟨b, ()⟩ bit_id).1 ≠ 0 ∧
      (read_bit ⟨b, ()⟩ bit_id).1 ≠ 1) := by
  refine ⟨fun σ w bit_id => rfl, ⟨⟨fun s _ _ => s, fun _ _ => 2, 0⟩, 0, ?_, ?_⟩⟩
  · decide
  · decide

/-- An event of the software-I2C bit stream, at transaction granularity:
a START condition, a clocked-out data bit, an acknowledgment sample
(`acked` is true when the target pulled the data line low), and a STOP
condition. -/
inductive I2CEvt : Type where
  | start
  | dataBit (b : Bool)
  | ackSample (acked : Bool)
  | stop
deriving DecidableEq, Repr

/-- Result of a software-I2C write transaction, per the spec's consumer
contract. -/
inductive I2CResult : Type where
  | ok
  | notPresent
  | notAcknowledged
deriving DecidableEq, Repr

/-- Modelled from the spec: one byte clocked out most-significant-bit
first. -/
def clock_out_byte (byte : Nat) : List I2CEvt :=
  (List.range 8).map (fun k => I2CEvt.dataBit (byte.testBit (7 - k)))

/-- Modelled from the spec: the data phase of an I2C write (the I2C state
machine is absent from the sources).  `acks k` is the mock target's
response at the `k`-th acknowledgment opportunity of the transaction (the
address phase being opportunity 0).  Each byte is clocked out and its
acknowledgment sampled; a not-acknowledged response aborts with
`notAcknowledged` after driving an immediate STOP, and a completed
transfer ends with STOP as well. -/
def i2c_write_bytes (acks : Nat → Bool) : Nat → List Nat →
    I2CResult × List I2CEvt
  | _, [] => (I2CResult.ok, [I2CEvt.stop])
  | k, byte :: rest =>
      if acks k then
        let (r, t2) := i2c_write_bytes acks (k + 1) rest
        (r, clock_out_byte byte ++ [I2CEvt.ackSample true] ++ t2)
      else
        (I2CResult.notAcknowledged,
         clock_out_byte byte ++ [I2CEvt.ackSample false, I2CEvt.stop])

/-- Modelled from the spec: a whole software-I2C write transaction (absent
from the sources).  START, then the 7-bit device address with the write
bit 0, then the address-phase acknowledgment: not-acknowledged there
reports `notPresent` after an immediate STOP; otherwise the data bytes
follow via `i2c_write_bytes`. -/
def i2c_write (acks : Nat → Bool) (dev_addr : Nat) (data : List Nat) :
    I2CResult × List I2CEvt :=
  if acks 0 then
    let (r, t) := i2c_write_bytes acks 1 data
    (r, [I2CEvt.start] ++ clock_out_byte (dev_addr * 2) ++
          [I2CEvt.ackSample true] ++ t)
  else
    (I2CResult.notPresent,
     [I2CEvt.start] ++ clock_out_byte (dev_addr * 2) ++
       [I2CEvt.ackSample false, I2CEvt.stop])

theorem getLast?_append_stop (l : List I2CEvt) {t : List I2CEvt}
    (h : t.getLast? = some I2CEvt.stop) :
    (l ++ t).getLast? = some I2CEvt.stop := by
  rw [List.getLast?_append_of_ne_nil]
  · exact h
  · intro hnil
    rw [hnil] at h
    cases h

theorem i2c_write_bytes_ends_stop (acks : Nat → Bool) :
    ∀ (bytes : List Nat) (k : Nat),
      (i2c_write_bytes acks k bytes).2.getLast? = some I2CEvt.stop
  | [], k => rfl
  | byte :: rest, k => by
      by_cases hk : acks k
      · have ih := i2c_write_bytes_ends_stop acks rest (k + 1)
        simp only [i2c_write_bytes, if_pos hk]
        exact getLast?_append_stop _ ih
      · simp only [i2c_write_bytes, if_neg hk]
        exact getLast?_append_stop _ rfl

theorem i2c_write_bytes_nack (acks : Nat → Bool) :
    ∀ (bytes : List Nat) (k j : Nat), j < bytes.length →
      acks (k + j) = false →
      (i2c_write_bytes acks k bytes).1 = I2CResult.notAcknowledged
  | [], _, j, hj, _ => absurd hj (Nat.not_lt_zero j)
  | byte :: rest, k, j, hj, hnack => by
      by_cases hk : acks k
      · cases j with
        | zero =>
            rw [Nat.add_zero] at hnack
            rw [hnack] at hk
            cases hk
        | succ j' =>
            have hj' : j' < rest.length := Nat.lt_of_succ_lt_succ hj
            have hnack' : acks (k + 1 + j') = false := by
              rw [Nat.add_right_comm]
              exact hnack
            have ih := i2c_write_bytes_nack acks rest (k + 1) j' hj' hnack'
            simpa [i2c_write_bytes, hk] using ih
      · simp [i2c_write_bytes, hk]

/-- C5: in every I2C write transaction, a not-acknowledged response in the
address phase is reported as `notPresent`, a not-acknowledged response in
any data phase (after an acknowledged address) is reported as
`notAcknowledged`, and the observed bit stream always ends with a STOP
condition — in particular in both failure cases. -/
theorem i2c_write_failure_semantics (acks : Nat → Bool) (dev_addr : Nat)
    (data : List Nat) :
    (acks 0 = false → (i2c_write acks dev_addr data).1 =
        I2CResult.notPresent) ∧
    (acks 0 = true → (∃ j, j < data.length ∧ acks (j + 1) = false) →
        (i2c_write acks dev_addr data).1 = I2CResult.notAcknowledged) ∧
    (i2c_write acks dev_addr data).2.getLast? = some I2CEvt.stop := by
  refine ⟨?_, ?_, ?_⟩
  · intro h0
    simp [i2c_write, h0]
  · intro h0 hj
    obtain ⟨j, hjlen, hjnack⟩ := hj
    have hnack' : acks (1 + j) = false := by
      rw [Nat.add_comm]
      exact hjnack
    have := i2c_write_bytes_nack acks data 1 j hjlen hnack'
    simp only [i2c_write, if_pos h0]
    exact this
  · by_cases h0 : acks 0
    · simp only [i2c_write, if_pos h0]
      exact getLast?_append_stop _ (i2c_write_bytes_ends_stop acks data 1)
    · simp only [i2c_write, if_neg h0]
      exact getLast?_append_stop _ (by rfl)

/-- C5 witness: against a target that never acknowledges, writing bytes
`[0x10, 0x20]` to device address `0x50` reports `notPresent`; against a
target that acknowledges only the address phase, the same write reports
`notAcknowledged`; and the never-acknowledging transaction's bit stream
ends with STOP. -/
theorem i2c_write_failure_semantics_witness :
    (i2c_write (fun _ => false) 80 [16, 32]).1 = I2CResult.notPresent ∧
    (i2c_write (fun n => decide (n = 0)) 80 [16, 32]).1 =
      I2CResult.notAcknowledged ∧
    (i2c_write (fun _ => false) 80 [16, 32]).2.getLast? =
      some I2CEvt.stop :=
  ⟨(i2c_write_failure_semantics (fun _ => false) 80 [16, 32]).1 rfl,
   (i2c_write_failure_semantics (fun n => decide (n = 0)) 80 [16, 32]).2.1
     (by decide) ⟨0, by decide, by decide⟩,
   (i2c_write_failure_semantics (fun _ => false) 80 [16, 32]).2.2⟩

/-- Bitwise complement of a C `int` value, 32-bit two's complement width:
`~x` as an unsigned bit pattern. -/
def int_compl (x : Nat) : Nat := x ^^^ (2 ^ 32 - 1)

/-- Translation of `DBGLVL` from `src/include/compiler.h` line 173 for the
enabled case (`DBGLVL_MAX` non-zero): `DBGLVL_MAX & ~__debug_disable`.
The first argument is `DBGLVL_MAX`, the second the current value of
`__debug_disable`.  At `max = 0` this also computes the disabled case's
constant 0. -/
def DBGLVL (max disable : Nat) : Nat := max &&& int_compl disable

/-- Translation of `DBG_DISABLE` from `src/include/compiler.h` lines
174-176: `__debug_disable |= ( (level) & DBGLVL_MAX )`, as the new value
of `__debug_disable`. -/
def DBG_DISABLE (max level disable : Nat) : Nat :=
  disable ||| (level &&& max)

/-- Translation of `DBG_ENABLE` from `src/include/compiler.h` lines
177-179: `__debug_disable &= ~( (level) & DBGLVL_MAX )`, as the new
value of `__debug_disable`. -/
def DBG_ENABLE (max level disable : Nat) : Nat :=
  disable &&& int_compl (level &&& max)

theorem testBit_int_allones (i : Nat) :
    Nat.testBit 4294967295 i = decide (i < 32) := by
  have h : (4294967295 : Nat) = 2 ^ 32 - 1 := by norm_num
  rw [h, Nat.testBit_two_pow_sub_one]

/-- C10 counterexample: with `DBGLVL_MAX = 1` and `__debug_disable = 1`
(a state reachable by a single prior `DBG_DISABLE(1)` from the initial
zero state), the pair `DBG_DISABLE(1); DBG_ENABLE(1)` does not restore
`__debug_disable`: it ends at 0 rather than 1, and `DBGLVL` accordingly
changes from 0 to 1 across the pair. -/
theorem dbg_disable_enable_pair_not_restoring :
    DBG_DISABLE 1 1 0 = 1 ∧
    DBG_ENABLE 1 1 (DBG_DISABLE 1 1 1) ≠ 1 ∧
    DBGLVL 1 1 = 0 ∧
    DBGLVL 1 (DBG_ENABLE 1 1 (DBG_DISABLE 1 1 1)) = 1 := by
  refine ⟨by decide, by decide, by decide, by decide⟩

/-- C10 (amended): with debugging compiled in, the effective level
`DBGLVL` is `DBGLVL_MAX` with the bits of `__debug_disable` cleared;
`DBG_DISABLE(level)` followed by `DBG_ENABLE(level)` restores
`__debug_disable` (hence `DBGLVL`) provided none of the bits of
`level & DBGLVL_MAX` were already set in `__debug_disable` before the
pair; `DBG_DISABLE` is idempotent; both macros change only bits within
`DBGLVL_MAX`; and at `DBGLVL_MAX = 0` (debugging disabled) the macros
leave `__debug_disable` unchanged and `DBGLVL` is 0. -/
theorem debug_level_macros (max level d : Nat) :
    (max < 2 ^ 32 → ∀ i : Nat,
      (DBGLVL max d).testBit i = (max.testBit i && !(d.testBit i))) ∧
    (max < 2 ^ 32 → d < 2 ^ 32 → d &&& (level &&& max) = 0 →
      DBG_ENABLE max level (DBG_DISABLE max level d) = d) ∧
    (DBG_DISABLE max level (DBG_DISABLE max level d) =
      DBG_DISABLE max level d) ∧
    (d < 2 ^ 32 → ∀ i : Nat, max.testBit i = false →
      (DBG_DISABLE max level d).testBit i = d.testBit i ∧
      (DBG_ENABLE max level d).testBit i = d.testBit i) ∧
    (DBGLVL 0 d = 0 ∧ DBG_DISABLE 0 level d = d ∧
      (d < 2 ^ 32 → DBG_ENABLE 0 level d = d)) := by
  have hbit : ∀ (x : Nat) (i : Nat), x < 2 ^ 32 → 32 ≤ i →
      x.testBit i = false := by
    intro x i hx hi
    exact Nat.testBit_lt_two_pow
      (lt_of_lt_of_le hx (Nat.pow_le_pow_right (by norm_num) hi))
  refine ⟨?_, ?_, ?_, ?_, ?_, ?_, ?_⟩
  · intro hmax i
    by_cases hi : i < 32
    · simp [DBGLVL, int_compl, Nat.testBit_and, Nat.testBit_xor,
        Nat.testBit_two_pow_sub_one, testBit_int_allones, hi]
    · have hm := hbit max i hmax (Nat.le_of_not_lt hi)
      simp [DBGLVL, int_compl, Nat.testBit_and, hm]
  · intro hmax hd h0
    apply Nat.eq_of_testBit_eq
    intro i
    have hdisj : (d.testBit i && (level.testBit i && max.testBit i))
        = false := by
      have := congrArg (fun x => x.testBit i) h0
      simpa [Nat.testBit_and] using this
    by_cases hi : i < 32
    · simp only [DBG_ENABLE, DBG_DISABLE, int_compl, Nat.testBit_and,
        Nat.testBit_or, Nat.testBit_xor, Nat.testBit_two_pow_sub_one,
        testBit_int_allones, hi, decide_True]
      cases hdt : d.testBit i <;> cases hlt : level.testBit i <;>
        cases hmt : max.testBit i <;> simp_all
    · have h1 := hbit d i hd (Nat.le_of_not_lt hi)
      have h2 := hbit max i hmax (Nat.le_of_not_lt hi)
      simp [DBG_ENABLE, DBG_DISABLE, int_compl, Nat.testBit_and,
        Nat.testBit_or, Nat.testBit_xor, h1, h2]
  · simp [DBG_DISABLE, Nat.or_assoc, Nat.or_self]
  · intro hd i hm
    have hq : (level &&& max).testBit i = false := by
      simp [Nat.testBit_and, hm]
    constructor
    · simp [DBG_DISABLE, Nat.testBit_or, Nat.testBit_and, hm]
    · by_cases hi : i < 32
      · simp [DBG_ENABLE, int_compl, Nat.testBit_and, Nat.testBit_xor,
          Nat.testBit_two_pow_sub_one, testBit_int_allones, hi, hm]
      · have h1 := hbit d i hd (Nat.le_of_not_lt hi)
        simp [DBG_ENABLE, int_compl, Nat.testBit_and, h1]
  · simp [DBGLVL]
  · simp [DBG_DISABLE]
  · intro hd
    simp only [DBG_ENABLE, Nat.and_zero, int_compl, Nat.zero_xor]
    exact Nat.and_pow_two_sub_one_of_lt_two_pow hd

/-- C10 witness: with `DBGLVL_MAX = 9`, disabling then re-enabling level
3 from the prior disable state 8 (which has no bit in `3 & 9 = 1`)
restores `__debug_disable` to 8; `DBGLVL` at disable state 8 has bit 0
set; and at `DBGLVL_MAX = 0` a `DBG_ENABLE` leaves disable state 5
unchanged. -/
theorem debug_level_macros_witness :
    DBG_ENABLE 9 3 (DBG_DISABLE 9 3 8) = 8 ∧
    (DBGLVL 9 8).testBit 0 = (Nat.testBit 9 0 && !(Nat.testBit 8 0)) ∧
    (DBG_DISABLE 9 3 8).testBit 1 = Nat.testBit 8 1 ∧
    DBG_ENABLE 0 3 5 = 5 :=
  ⟨(debug_level_macros 9 3 8).2.1 (by decide) (by decide) (by decide),
   (debug_level_macros 9 3 8).1 (by decide) 0,
   ((debug_level_macros 9 3 8).2.2.2.1 (by decide) 1 (by decide)).1,
   (debug_level_macros 0 3 5).2.2.2.2.2.2 (by decide)⟩

/-- C3 witness: on a concrete trivial backend, requesting logic 1
(`data = 1`) and ANDing the resulting mask with the concrete bit mask 4
(which fits in an `unsigned long`) yields 4. -/
theorem write_bit_mask_encoding_witness :
    (4 : Nat) ≤ ULONG_MAX ∧ level_mask 1 &&& 4 = 4 := by
  have h4 : (4 : Nat) ≤ ULONG_MAX := by norm_num [ULONG_MAX]
  refine ⟨h4, ?_⟩
  have h := (write_bit_mask_encoding
    (⟨⟨fun s _ _ => s, fun _ _ => 0, 0⟩, ()⟩ : World Unit) 2 1).2.2.2 4 h4
  simpa using h

/-- C6 witness: on a concrete backend whose sample is 2, `read_bit`
returns 2, and the read event of its trace is not a delay event. -/
theorem read_bit_samples_without_delay_witness :
    (read_bit (⟨⟨fun s _ _ => s, fun _ _ => 2, 0⟩, ()⟩ : World Unit) 0).1
        = 2 ∧
    Evt.readCall 0 2 ≠ Evt.delay 7 := by
  have h := read_bit_samples_without_delay
    (⟨⟨fun s _ _ => s, fun _ _ => 2, 0⟩, ()⟩ : World Unit) 0
  exact ⟨h.1.trans rfl, h.2 (Evt.readCall 0 2) (by simp [read_bit]) 7⟩
